import Mathlib

/-!
Verification of the `watchstat` repository (src/watchstat/__init__.py and
src/watchstat/__main__.py) against its natural-language specification.

Python strings are embedded as `List Char`, Python ints as `Int`, clock
values (`time.time()` floats) as rationals, and the fallible operations
(`ValueError`, `KeyError`, `OSError`, `AttributeError`) as `Except` results.
The potentially unbounded scanning loop of `find_tokens` and the polling
loop of `watchstat` are embedded with an explicit fuel argument; a result of
`none` means the fuel ran out (or, for an empty delimiter, that the Python
loop diverges).  All definitions are computable so that every theorem can be
checked on concrete inputs.
-/

/-! ### Metadata field registry (module constants of watchstat/__init__.py) -/

/-- Index constants of the `stat` module: positions in an `os.stat` 10-tuple. -/
def ST_MODE : Nat := 0

def ST_INO : Nat := 1

def ST_DEV : Nat := 2

def ST_NLINK : Nat := 3

def ST_UID : Nat := 4

def ST_GID : Nat := 5

def ST_SIZE : Nat := 6

def ST_ATIME : Nat := 7

def ST_MTIME : Nat := 8

def ST_CTIME : Nat := 9

/-- `stat_info` from `__init__.py` lines 15-26: field index paired with its
short and long option name, in the dictionary's insertion order.
(The human-readable descriptions are omitted: they feed only `--help` text.) -/
def stat_info : List (Nat × List Char × List Char) :=
  [(ST_MTIME, ['m'], ['m', 't', 'i', 'm', 'e']),
   (ST_ATIME, ['a'], ['a', 't', 'i', 'm', 'e']),
   (ST_CTIME, ['c'], ['c', 't', 'i', 'm', 'e']),
   (ST_DEV, ['d'], ['d', 'e', 'v']),
   (ST_INO, ['i'], ['i', 'n', 'o']),
   (ST_MODE, ['M'], ['m', 'o', 'd', 'e']),
   (ST_NLINK, ['n'], ['n', 'l', 'i', 'n', 'k']),
   (ST_UID, ['u'], ['u', 'i', 'd']),
   (ST_GID, ['g'], ['g', 'i', 'd']),
   (ST_SIZE, ['s'], ['s', 'i', 'z', 'e'])]

/-- `_reverse_stat_info` (`__init__.py` lines 29-34): for each entry, map both
the short option and the long field name back to the stat index.  The Python
dict has pairwise distinct keys, so an association list with first-match
lookup is an exact model. -/
def _reverse_stat_info (info : List (Nat × List Char × List Char)) :
    List (List Char × Nat) :=
  info.foldl (fun rinfo e => rinfo ++ [(e.2.1, e.1), (e.2.2, e.1)]) []

/-- `rstat_info = _reverse_stat_info(stat_info)` (`__init__.py` line 37). -/
def rstat_info : List (List Char × Nat) := _reverse_stat_info stat_info

/-- A Python `os.stat` result: the ten entries of the stat tuple.
All entries obtained by integer indexing are Python ints. -/
structure StatResult where
  st_mode : Int
  st_ino : Int
  st_dev : Int
  st_nlink : Int
  st_uid : Int
  st_gid : Int
  st_size : Int
  st_atime : Int
  st_mtime : Int
  st_ctime : Int
deriving DecidableEq

/-- Integer indexing `status[i]` on an `os.stat` result (tuple order of the
`stat` module constants).  Indexes other than 0..9 never occur in the code. -/
def statIndex (st : StatResult) (i : Nat) : Int :=
  match i with
  | 0 => st.st_mode
  | 1 => st.st_ino
  | 2 => st.st_dev
  | 3 => st.st_nlink
  | 4 => st.st_uid
  | 5 => st.st_gid
  | 6 => st.st_size
  | 7 => st.st_atime
  | 8 => st.st_mtime
  | 9 => st.st_ctime
  | _ => 0

/-- Python `str.lower` on the ASCII strings used by the registry. -/
def lowerStr (s : List Char) : List Char := s.map Char.toLower

/-- Python `repr` of an int: its decimal representation. -/
def pyRepr (i : Int) : List Char := (toString i).toList

/-! ### String scanning primitives -/

/-- Python `string.find(sub)`: offset of the leftmost occurrence of `d` in
`s`, or `none` ( Python `-1`) when there is none. -/
def strFind (s d : List Char) : Option Nat :=
  match s with
  | [] => if d = [] then some 0 else none
  | _ :: rest => if d.isPrefixOf s then some 0 else (strFind rest d).map (· + 1)

/-- Python `string.find(sub, start)`: leftmost occurrence of `d` in `s` at
offset `≥ start`. -/
def findD (s d : List Char) (start : Nat) : Option Nat :=
  (strFind (s.drop start) d).map (· + start)

/-- Python slice `s[a:b]`. -/
def listSlice (s : List Char) (a b : Nat) : List Char := (s.drop a).take (b - a)

/-! ### `find_tokens` (`__init__.py` lines 40-70) -/

/-- Errors raised inside interpolation.  `delimMismatch` and `badStatKey` are
the two `ValueError`s of the source; `keyError` is a Python `KeyError` from a
dict lookup; `indexError` is `argv[0]` on an empty vector. -/
inductive InterpErr
  | delimMismatch
  | badStatKey (key : List Char)
  | keyError (key : List Char)
  | indexError
deriving DecidableEq

deriving instance DecidableEq for Except

/-- One iteration of the `while delim_offset >= 0` loop of `find_tokens`:
the current value of `delim_offset` is carried as an `Option Nat` (Python's
`-1` is `none`).  Each iteration locates the closing delimiter
(`ValueError("delimiter mismatch")` if absent), yields `(offset, key)` unless
the key is empty, and resumes after the closing delimiter.  One unit of fuel
per loop iteration; `none` means the fuel ran out. -/
def find_tokens_loop (s d : List Char) :
    Nat → Option Nat → Option (Except InterpErr (List (Nat × List Char)))
  | _, none => some (.ok [])
  | 0, some _ => none
  | fuel + 1, some token_offset =>
    let key_offset := token_offset + d.length
    match findD s d key_offset with
    | none => some (.error .delimMismatch)
    | some close =>
      match find_tokens_loop s d fuel (findD s d (close + d.length)) with
      | none => none
      | some (.error e) => some (.error e)
      | some (.ok rest) =>
        if close ≠ key_offset then
          some (.ok ((token_offset, listSlice s key_offset close) :: rest))
        else
          some (.ok rest)

/-- `find_tokens(string, delim)`: the full token list produced by the
generator (materialised, since `interpolate_argument` always drains it).
Each loop iteration advances the scan offset by at least two characters, so
`s.length + 1` units of fuel always suffice when the delimiter is non-empty;
for an empty delimiter the Python loop diverges and the result is `none`. -/
def find_tokens (s d : List Char) :
    Option (Except InterpErr (List (Nat × List Char))) :=
  find_tokens_loop s d (s.length + 1) (findD s d 0)

/-- The successive delimiter occurrences found by repeatedly calling
`string.find(delim, pos)` and resuming right after each hit — the greedy
non-overlapping occurrence list (what Python's `string.count(delim)`
counts).  Fuel as in `find_tokens_loop`, one unit per occurrence. -/
def occsAux (s d : List Char) : Nat → Nat → List Nat
  | 0, _ => []
  | fuel + 1, start =>
    match findD s d start with
    | none => []
    | some i => i :: occsAux s d fuel (i + d.length)

/-- Greedy non-overlapping occurrence list of `d` in `s` from offset `start`. -/
def occurrencesFrom (s d : List Char) (start : Nat) : List Nat :=
  occsAux s d (s.length + 1) start

/-- Greedy non-overlapping occurrence list of `d` in `s`. -/
def occurrences (s d : List Char) : List Nat := occurrencesFrom s d 0

/-! ### `interpolate_argument` (`__init__.py` lines 73-107) -/

/-- Token resolution, `__init__.py` lines 94-100, byte for byte:
the registry membership test lowercases the key but the fetch does not
(`rstat_info[key]`, a possible `KeyError`), and the extra-keys membership
test uses the raw key while the fetch lowercases it
(`extra_keys[key.lower()]`, a possible `KeyError`). -/
def resolve_key (status : StatResult) (extra : List (List Char × List Char))
    (key : List Char) : Except InterpErr (List Char) :=
  if (rstat_info.lookup (lowerStr key)).isSome then
    match rstat_info.lookup key with
    | some field => .ok (pyRepr (statIndex status field))
    | none => .error (.keyError key)
  else if (extra.lookup key).isSome then
    match extra.lookup (lowerStr key) with
    | some v => .ok v
    | none => .error (.keyError (lowerStr key))
  else .error (.badStatKey key)

/-- The interpolation loop of `interpolate_argument` (lines 87-106): walk the
token list, copying the literal span before each token, resolving the token
key (skipped when the key is empty — `if key:`), and finally copying the
trailing span from `last_offset`. -/
def interp_go (s : List Char) (dlen : Nat) (status : StatResult)
    (extra : List (List Char × List Char)) :
    List (Nat × List Char) → Nat → Except InterpErr (List Char)
  | [], last_offset => .ok (s.drop last_offset)
  | (offset, key) :: toks, last_offset =>
    match (if key = [] then .ok [] else resolve_key status extra key :
        Except InterpErr (List Char)) with
    | .error e => .error e
    | .ok v =>
      match interp_go s dlen status extra toks (offset + key.length + 2 * dlen) with
      | .error e => .error e
      | .ok rest => .ok (listSlice s last_offset offset ++ v ++ rest)

/-- `interpolate_argument(string, delim, status, **extra_keys)`.
`none` models divergence / fuel exhaustion of the scanner (only possible for
an empty delimiter). -/
def interpolate_argument (s d : List Char) (status : StatResult)
    (extra : List (List Char × List Char)) :
    Option (Except InterpErr (List Char)) :=
  match find_tokens s d with
  | none => none
  | some (.error e) => some (.error e)
  | some (.ok toks) => some (interp_go s d.length status extra toks 0)

/-- The list comprehension of `interpolate_argument_vector`: interpolate each
remaining argument left to right, propagating the first error. -/
def interp_args (d : List Char) (status : StatResult)
    (extra : List (List Char × List Char)) :
    List (List Char) → Option (Except InterpErr (List (List Char)))
  | [] => some (.ok [])
  | a :: rest =>
    match interpolate_argument a d status extra with
    | none => none
    | some (.error e) => some (.error e)
    | some (.ok s) =>
      match interp_args d status extra rest with
      | none => none
      | some (.error e) => some (.error e)
      | some (.ok ss) => some (.ok (s :: ss))

/-- `interpolate_argument_vector(argv, delim, status, **keys)`
(`__init__.py` lines 110-119): `[argv[0]] + [interpolate_argument(arg, ...)
for arg in argv[1:]]`.  `argv[0]` on an empty vector is an `IndexError`. -/
def interpolate_argument_vector (argv : List (List Char)) (d : List Char)
    (status : StatResult) (extra : List (List Char × List Char)) :
    Option (Except InterpErr (List (List Char))) :=
  match argv with
  | [] => some (.error .indexError)
  | a0 :: rest =>
    match interp_args d status extra rest with
    | none => none
    | some (.error e) => some (.error e)
    | some (.ok ss) => some (.ok (a0 :: ss))

/-! ### `try_stat` and the watch loop (`__init__.py` lines 122-258)

The loop's environment is a clock stream `clock : Nat → ℚ` (the successive
values returned by `time.time()`, read through a counter kept in the state)
and a stat stream `statFn : Nat → Nat → Except OsErr StatResult` giving the
`os.stat` outcome for each (poll cycle, path); cycle 0 is the initial
snapshot pass of line 195.  Paths are numbers.  Callbacks return
`Option Bool`: `none` is Python `None`, `some b` a boolean. -/

/-- Outcome of an `os.stat` call that did not succeed. -/
inductive OsErr
  | enoent
  | eother
deriving DecidableEq

/-- `try_stat(path, retry)` (`__init__.py` lines 130-145) applied to the
outcome of `os.stat`: `ENOENT` yields `None` under `retry`, otherwise the
`OSError` propagates; non-`ENOENT` errors always propagate. -/
def try_stat (retry : Bool) (r : Except OsErr StatResult) :
    Except OsErr (Option StatResult) :=
  match r with
  | .ok st => .ok (some st)
  | .error .enoent => if retry then .ok none else .error .enoent
  | .error .eother => .error .eother

/-- Mutable state of the polling loop: invocation count, the last value
read from the clock (`now`), the last-known-snapshot dict, and the clock
read counter. -/
structure LoopState where
  ncalls : Nat
  now : ℚ
  stats : Nat → Option StatResult
  clk : Nat

/-- A user callback: `callback(path, diff, old, new)`. -/
abbrev Callback := Nat → Finset Nat → Option StatResult → StatResult → Option Bool

/-- Ghost record of one callback invocation (its four arguments). -/
structure CallRec where
  path : Nat
  diff : Finset Nat
  old : Option StatResult
  new : StatResult
deriving DecidableEq

/-- Exceptions that abort the loop altogether: a propagated stat `OSError`,
or the `ValueError` that CPython's `time.sleep` raises on a negative
duration. -/
inductive Fatal
  | osError (e : OsErr)
  | sleepValueError
deriving DecidableEq

/-- Normal terminations of the loop: plain return of `ncalls`, or the
`SoftTimeout` / `Timeout` exceptions of lines 252-256. -/
inductive Outcome2
  | normal (ncalls : Nat)
  | softTO
  | hardTO
deriving DecidableEq

/-- Python truthiness test `continu is not None and not continu`
(lines 235 and 248) on an `Option Bool` callback result. -/
def pyFalsy : Option Bool → Bool
  | none => false
  | some b => !b

/-- The diff-set computation of lines 219-229: with a last-known snapshot,
the configured fields whose values differ; with no last-known snapshot
(`last_status is None`), the full configured field set. -/
def diff_fields (fields' : List Nat) (last : Option StatResult)
    (next : StatResult) : Finset Nat :=
  match last with
  | some l => (fields'.filter (fun f => statIndex l f != statIndex next f)).toFinset
  | none => fields'.toFinset

/-- Result of processing one watch entry inside a poll cycle: a fatal
exception, a `break` out of the per-path `for` loop, or fall-through to the
next entry.  Each carries the state, the running `continu` value and the
ghost call log. -/
inductive EntryResult
  | fatal (e : Fatal) (st : LoopState) (calls : List CallRec)
  | breakNow (st : LoopState) (continu : Option Bool) (calls : List CallRec)
  | continueNext (st : LoopState) (continu : Option Bool) (calls : List CallRec)

/-- Lines 238-246: store the fresh snapshot, refresh `now` from the clock,
and break out of the `for` loop (with `continu = False`) when the limit is
reached, the soft deadline passed with no call made, or the hard deadline
passed. -/
def entryTail (clock : Nat → ℚ) (limit : Int) (soft hard : ℚ) (path : Nat)
    (next_status : Option StatResult) (st : LoopState) (continu : Option Bool)
    (calls : List CallRec) : EntryResult :=
  let st1 : LoopState :=
    { ncalls := st.ncalls
      now := clock st.clk
      stats := fun q => if q = path then next_status else st.stats q
      clk := st.clk + 1 }
  if (0 < limit ∧ limit ≤ (st1.ncalls : Int)) ∨
      (st1.ncalls = 0 ∧ soft ≤ st1.now) ∨ hard ≤ st1.now then
    .breakNow st1 (some false) calls
  else
    .continueNext st1 continu calls

/-- Lines 210-246, one watch entry `(path, fields)` of the `for` loop:
default empty field lists to mtime, stat the path, skip the callback when
the path is missing, otherwise invoke the callback when the diff set is
non-empty (or the path just appeared).  A falsy callback return `break`s
immediately — before line 238, so the snapshot dict is left untouched. -/
def processEntry (statFn : Nat → Nat → Except OsErr StatResult)
    (clock : Nat → ℚ) (cb : Callback) (limit : Int) (soft hard : ℚ)
    (retry : Bool) (cycle : Nat) (path : Nat) (fields : List Nat)
    (st : LoopState) (continu : Option Bool) (calls : List CallRec) :
    EntryResult :=
  let fields' := if fields = [] then [ST_MTIME] else fields
  match try_stat retry (statFn cycle path) with
  | .error e => .fatal (.osError e) st calls
  | .ok next_status =>
    match next_status with
    | none => entryTail clock limit soft hard path next_status st continu calls
    | some nst =>
      let diff := diff_fields fields' (st.stats path) nst
      if diff ≠ ∅ then
        let ret := cb path diff (st.stats path) nst
        let st1 : LoopState :=
          { st with ncalls := st.ncalls + 1 }
        let calls1 := calls ++ [⟨path, diff, st.stats path, nst⟩]
        if pyFalsy ret then .breakNow st1 ret calls1
        else entryTail clock limit soft hard path next_status st1 ret calls1
      else entryTail clock limit soft hard path next_status st continu calls

/-- Result of one full pass over the watch list (the `for` loop of
line 210): final state, final `continu`, whether the loop `break`-ed, and
the ghost call log. -/
structure CycleRes where
  st : LoopState
  continu : Option Bool
  broke : Bool
  calls : List CallRec

/-- The `for path, fields in watchlist` loop: process entries in order until
one of them breaks or raises. -/
def processPaths (statFn : Nat → Nat → Except OsErr StatResult)
    (clock : Nat → ℚ) (cb : Callback) (limit : Int) (soft hard : ℚ)
    (retry : Bool) (cycle : Nat) :
    List (Nat × List Nat) → LoopState → Option Bool → List CallRec →
    Except (Fatal × LoopState × List CallRec) CycleRes
  | [], st, continu, calls => .ok ⟨st, continu, false, calls⟩
  | (path, fields) :: rest, st, continu, calls =>
    match processEntry statFn clock cb limit soft hard retry cycle path fields
        st continu calls with
    | .fatal e st' calls' => .error (e, st', calls')
    | .breakNow st' continu' calls' => .ok ⟨st', continu', true, calls'⟩
    | .continueNext st' continu' calls' =>
      processPaths statFn clock cb limit soft hard retry cycle rest st' continu' calls'

/-- Overall result of a run: the loop's outcome (or the exception that
escaped it), the final loop state, and the ghost call log. -/
structure RunRes where
  result : Except Fatal Outcome2
  final : LoopState
  calls : List CallRec

/-- Lines 252-258: raise `SoftTimeout` when no call was made and the soft
deadline passed, else raise `Timeout` when the hard deadline passed, else
return `ncalls`. -/
def epilogue (soft hard : ℚ) (st : LoopState) (calls : List CallRec) : RunRes :=
  ⟨.ok (if st.ncalls = 0 ∧ soft ≤ st.now then .softTO
        else if hard ≤ st.now then .hardTO
        else .normal st.ncalls), st, calls⟩

/-- The `while` loop of lines 197-250, one unit of fuel per iteration
(`none` = fuel exhausted).  Each iteration: test the loop condition, compute
`sleep_dur = min(softtimeout - now, timeout - now, interval / 1000.0)`
(CPython's `time.sleep` raises `ValueError` when it is negative), refresh
`now`, break on a deadline, run the per-path loop, break when `continu`
is falsy, refresh `now` again and repeat. -/
def runCycles (statFn : Nat → Nat → Except OsErr StatResult)
    (clock : Nat → ℚ) (cb : Callback) (watchlist : List (Nat × List Nat))
    (limit interval : Int) (soft hard : ℚ) (retry : Bool) :
    Nat → Nat → LoopState → List CallRec → Option RunRes
  | 0, _, _, _ => none
  | fuel + 1, cycle, st, calls =>
    if (limit ≤ 0 ∨ (st.ncalls : Int) < limit) ∧
        (0 < st.ncalls ∨ st.now < soft) ∧ st.now < hard then
      let sleep_dur := min (soft - st.now) (min (hard - st.now) ((interval : ℚ) / 1000))
      if sleep_dur < 0 then some ⟨.error .sleepValueError, st, calls⟩
      else
        let st1 : LoopState := { st with now := clock st.clk, clk := st.clk + 1 }
        if (st1.ncalls = 0 ∧ soft ≤ st1.now) ∨ hard ≤ st1.now then
          some (epilogue soft hard st1 calls)
        else
          match processPaths statFn clock cb limit soft hard retry cycle
              watchlist st1 (some true) calls with
          | .error (e, st2, calls2) => some ⟨.error e, st2, calls2⟩
          | .ok cr =>
            if pyFalsy cr.continu then some (epilogue soft hard cr.st cr.calls)
            else
              let st3 : LoopState :=
                { cr.st with now := clock cr.st.clk, clk := cr.st.clk + 1 }
              runCycles statFn clock cb watchlist limit interval soft hard retry
                fuel (cycle + 1) st3 cr.calls
    else some (epilogue soft hard st calls)

/-- `sys.maxsize` on a 64-bit platform, used as the "disabled" deadline. -/
def qMaxsize : ℚ := 9223372036854775807

/-- Line 190: `softtimeout = now + softtimeout if softtimeout else
sys.maxsize` (`now` is the first clock reading). -/
def softDeadline (clock : Nat → ℚ) (softP : ℚ) : ℚ :=
  if softP ≠ 0 then clock 0 + softP else qMaxsize

/-- Line 191: the hard deadline, computed the same way. -/
def hardDeadline (clock : Nat → ℚ) (hardP : ℚ) : ℚ :=
  if hardP ≠ 0 then clock 0 + hardP else qMaxsize

/-- Line 195: `stats = dict((path, try_stat(path, retry)) for path, fields
in watchlist)` — the initial snapshot pass; the first stat exception
propagates out of `watchstat` before the loop starts. -/
def initStats (statFn : Nat → Nat → Except OsErr StatResult) (retry : Bool) :
    List (Nat × List Nat) → (Nat → Option StatResult) →
    Except OsErr (Nat → Option StatResult)
  | [], acc => .ok acc
  | (p, _) :: rest, acc =>
    match try_stat retry (statFn 0 p) with
    | .error e => .error e
    | .ok v => initStats statFn retry rest (fun q => if q = p then v else acc q)

/-- `watchstat(watchlist, callback, interval, limit, retry, softtimeout,
timeout)` (`__init__.py` lines 148-258).  `softP`/`hardP` are the
`softtimeout`/`timeout` arguments in seconds (`0` models the falsy
disabled values `None`/`0`); `fuel` bounds the number of poll cycles. -/
def watchstat (statFn : Nat → Nat → Except OsErr StatResult)
    (clock : Nat → ℚ) (cb : Callback) (watchlist : List (Nat × List Nat))
    (interval limit : Int) (retry : Bool) (softP hardP : ℚ) (fuel : Nat) :
    Option RunRes :=
  let now0 := clock 0
  let soft := softDeadline clock softP
  let hard := hardDeadline clock hardP
  match initStats statFn retry watchlist (fun _ => none) with
  | .error e => some ⟨.error (.osError e), ⟨0, now0, fun _ => none, 1⟩, []⟩
  | .ok stats0 =>
    runCycles statFn clock cb watchlist limit interval soft hard retry fuel 1
      ⟨0, now0, stats0, 1⟩ []

/-! ### Projections used to state theorems about loop results -/

/-- The state carried by an `EntryResult`. -/
def entryState : EntryResult → LoopState
  | .fatal _ st _ => st
  | .breakNow st _ _ => st
  | .continueNext st _ _ => st

/-- The call log carried by an `EntryResult`. -/
def entryCalls : EntryResult → List CallRec
  | .fatal _ _ c => c
  | .breakNow _ _ c => c
  | .continueNext _ _ c => c

/-- Whether an `EntryResult` breaks out of the per-path loop. -/
def entryBroke : EntryResult → Bool
  | .breakNow _ _ _ => true
  | _ => false

/-- The stored snapshot for `q` after processing one entry. -/
def entryStats (r : EntryResult) (q : Nat) : Option StatResult :=
  (entryState r).stats q

/-- The invocation count after processing one entry. -/
def entryNcalls (r : EntryResult) : Nat := (entryState r).ncalls

/-- Projection of a run to decidable data: outcome, final `ncalls`, final
`now`. -/
def runView (r : Option RunRes) : Option (Except Fatal Outcome2 × Nat × ℚ) :=
  r.map (fun v => (v.result, v.final.ncalls, v.final.now))

/-- Projection of a run to its outcome and number of callback invocations. -/
def runCount (r : Option RunRes) : Option (Except Fatal Outcome2 × Nat) :=
  r.map (fun v => (v.result, v.calls.length))

/-! ### The `__main__.py` glue modelled for the initial-run option -/

/-- Exceptions of the CLI glue layer. -/
inductive PyExc
  | attributeError (name : List Char)
deriving DecidableEq

/-- The attribute names bound on the namespace returned by `parse_args`
(`__main__.py` lines 28-137): the `dest` of every registered option plus the
two positionals.  All ten stat-field options share the dest `watch`. -/
def parse_args_dests : List (List Char) :=
  [['v', 'e', 'r', 'b', 'o', 's', 'e'],
   ['w', 'a', 't', 'c', 'h'],
   ['i', 'n', 'i', 't', 'i', 'a', 'l', '_', 'r', 'u', 'n'],
   ['l', 'i', 'm', 'i', 't'],
   ['i', 'n', 't', 'e', 'r', 'v', 'a', 'l'],
   ['t', 'i', 'm', 'e', 'o', 'u', 't'],
   ['s', 'o', 'f', 't', 't', 'i', 'm', 'e', 'o', 'u', 't'],
   ['f', 'o', 'r', 'c', 'e'],
   ['r', 'e', 't', 'r', 'y'],
   ['i', 'n', 't', 'e', 'r', 'p'],
   ['c', 'o', 'm', 'm', 'a', 'n', 'd'],
   ['a', 'r', 'g', 's']]

/-- Python attribute access `getattr(ns, name)` on an `argparse.Namespace`
holding exactly the attributes in `dests`. -/
def ns_getattr (dests : List (List Char)) (name : List Char) :
    Except PyExc Unit :=
  if name ∈ dests then .ok () else .error (.attributeError name)

/-- `__main__.py` lines 201-203: `if opts.initial_run:
callback(set(), None, os.stat(opts.path))`.  The attribute lookup
`opts.path` is evaluated first (inside the `os.stat` argument). -/
def main_initial_run (initial_run : Bool) : Except PyExc Unit :=
  if initial_run then
    match ns_getattr parse_args_dests ['p', 'a', 't', 'h'] with
    | .error e => .error e
    | .ok _ => .ok ()
  else .ok ()

/-- Projection of a run to its outcome alone. -/
def runResult (r : Option RunRes) : Option (Except Fatal Outcome2) :=
  r.map (fun v => v.result)

/-- A snapshot whose fields are all zero except `st_mtime = m`. -/
def mtimeStat (m : Int) : StatResult := ⟨0, 0, 0, 0, 0, 0, 0, 0, m, 0⟩

/-- Concrete clock for the negative-sleep scenario: `time.time()` returns
0 at start, 1 after the first sleep, then 6 (past the soft deadline 5). -/
def clock4 : Nat → ℚ := fun n => if n = 0 then 0 else if n = 1 then 1 else 6

/-- Concrete stat stream: the path always exists, its mtime is the cycle
number (so every poll differs from the last). -/
def statFn4 : Nat → Nat → Except OsErr StatResult :=
  fun cyc _ => .ok (mtimeStat cyc)

/-- A callback with no return statement (Python `None`). -/
def cbNone : Callback := fun _ _ _ _ => none

/-- A callback that returns the stop value `False`. -/
def cbStop : Callback := fun _ _ _ _ => some false

/-- Loop state for the stop-value scenario: one path, last-known snapshot
with mtime 0. -/
def st3 : LoopState := ⟨0, 0, fun _ => some (mtimeStat 0), 1⟩

/-- The remaining occurrence list when the scanner's pending
`delim_offset` is `cur`. -/
def occFromOpt (s d : List Char) : Option Nat → List Nat
  | none => []
  | some t => t :: occurrencesFrom s d (t + d.length)

/-- `True` rendered on `Option` results: is this an interpolation error? -/
def isErrOpt {α : Type} : Option (Except InterpErr α) → Bool
  | some (.error _) => true
  | _ => false

/-! ### Lemmas about the scanning primitives -/

theorem strFind_le {s d : List Char} {i : Nat} (h : strFind s d = some i) :
    i ≤ s.length := by
  induction s generalizing i with
  | nil =>
    simp only [strFind] at h
    split at h
    · simp only [Option.some.injEq] at h
      omega
    · exact Option.noConfusion h
  | cons x rest ih =>
    simp only [strFind] at h
    split at h
    · simp only [Option.some.injEq] at h
      simp only [List.length_cons]
      omega
    · obtain ⟨j, hj, rfl⟩ := Option.map_eq_some'.mp h
      have := ih hj
      simp only [List.length_cons]
      omega

theorem findD_bounds {s d : List Char} {start i : Nat} (hd : d ≠ [])
    (h : findD s d start = some i) : start ≤ i ∧ i ≤ s.length := by
  obtain ⟨j, hj, rfl⟩ := Option.map_eq_some'.mp h
  have hle := strFind_le hj
  rw [List.length_drop] at hle
  constructor
  · omega
  · by_cases hs : start ≤ s.length
    · omega
    · exfalso
      rw [List.drop_eq_nil_of_le (by omega)] at hj
      simp only [strFind, if_neg hd] at hj
      exact Option.noConfusion hj

theorem findD_none_of_gt {s d : List Char} {start : Nat} (hd : d ≠ [])
    (hs : s.length < start) : findD s d start = none := by
  unfold findD
  rw [List.drop_eq_nil_of_le (by omega)]
  simp only [strFind, if_neg hd, Option.map_none']

theorem occsAux_congr {s d : List Char} (hd : d ≠ []) :
    ∀ f1 f2 start, s.length + 1 - start ≤ f1 → s.length + 1 - start ≤ f2 →
      occsAux s d f1 start = occsAux s d f2 start := by
  have hdl : 0 < d.length := List.length_pos.mpr hd
  intro f1
  induction f1 with
  | zero =>
    intro f2 start h1 _
    have hst : s.length < start := by omega
    cases f2 with
    | zero => rfl
    | succ g => simp only [occsAux, findD_none_of_gt hd hst]
  | succ f ih =>
    intro f2 start h1 h2
    cases f2 with
    | zero =>
      have hst : s.length < start := by omega
      simp only [occsAux, findD_none_of_gt hd hst]
    | succ g =>
      simp only [occsAux]
      cases hi : findD s d start with
      | none => rfl
      | some i =>
        have hb := findD_bounds hd hi
        simp only [List.cons.injEq, true_and]
        exact ih g (i + d.length) (by omega) (by omega)

theorem occurrencesFrom_unfold {s d : List Char} (hd : d ≠ []) (start : Nat) :
    occurrencesFrom s d start =
      match findD s d start with
      | none => []
      | some i => i :: occurrencesFrom s d (i + d.length) := by
  have hdl : 0 < d.length := List.length_pos.mpr hd
  unfold occurrencesFrom
  conv_lhs => rw [occsAux]
  cases hi : findD s d start with
  | none => rfl
  | some i =>
    have hb := findD_bounds hd hi
    simp only [List.cons.injEq, true_and]
    exact occsAux_congr hd _ _ _ (by omega) (by omega)

theorem occFromOpt_findD {s d : List Char} (hd : d ≠ []) (start : Nat) :
    occurrencesFrom s d start = occFromOpt s d (findD s d start) := by
  rw [occurrencesFrom_unfold hd]
  cases findD s d start <;> rfl

theorem find_tokens_loop_parity {s d : List Char} (hd : d ≠ []) :
    ∀ fuel cur r, find_tokens_loop s d fuel cur = some r →
      ((r = .error .delimMismatch) ↔ Odd (occFromOpt s d cur).length) := by
  intro fuel
  induction fuel with
  | zero =>
    intro cur r h
    cases cur with
    | none =>
      simp only [find_tokens_loop, Option.some.injEq] at h
      subst h
      simp [occFromOpt]
    | some t =>
      simp only [find_tokens_loop] at h
      exact Option.noConfusion h
  | succ f ih =>
    intro cur r h
    cases cur with
    | none =>
      simp only [find_tokens_loop, Option.some.injEq] at h
      subst h
      simp [occFromOpt]
    | some t =>
      cases hc : findD s d (t + d.length) with
      | none =>
        simp only [find_tokens_loop, hc, Option.some.injEq] at h
        subst h
        have hocc : occFromOpt s d (some t) = [t] := by
          simp only [occFromOpt]
          rw [occurrencesFrom_unfold hd (t + d.length), hc]
        rw [hocc]
        simp
      | some close =>
        have hocc : occFromOpt s d (some t) =
            t :: close :: occFromOpt s d (findD s d (close + d.length)) := by
          rw [show occFromOpt s d (some t) =
              t :: occurrencesFrom s d (t + d.length) from rfl]
          rw [occurrencesFrom_unfold hd (t + d.length)]
          simp only [hc]
          rw [occFromOpt_findD hd (close + d.length)]
        cases hrec : find_tokens_loop s d f (findD s d (close + d.length)) with
        | none =>
          simp only [find_tokens_loop, hc, hrec] at h
          exact Option.noConfusion h
        | some r' =>
          simp only [find_tokens_loop, hc, hrec] at h
          have hih := ih _ _ hrec
          split at h
          · exact Option.noConfusion h
          · rename_i e heq
            rw [Option.some_inj.mp heq] at hih
            have hre : r = Except.error e := (Option.some_inj.mp h).symm
            subst hre
            rw [hocc]
            simp only [List.length_cons]
            constructor
            · intro he
              rcases hih.mp he with ⟨k, hk⟩
              exact ⟨k + 1, by omega⟩
            · intro hodd
              apply hih.mpr
              rcases hodd with ⟨k, hk⟩
              exact ⟨k - 1, by omega⟩
          · rename_i rest heq
            rw [Option.some_inj.mp heq] at hih
            have hok : ¬ Odd (occFromOpt s d (findD s d (close + d.length))).length := by
              intro hodd
              exact Except.noConfusion (hih.mpr hodd)
            have hrok : ∃ ts, r = Except.ok ts := by
              split at h <;> exact ⟨_, (Option.some_inj.mp h).symm⟩
            rcases hrok with ⟨ts, rfl⟩
            rw [hocc]
            simp only [List.length_cons]
            constructor
            · intro hco
              exact Except.noConfusion hco
            · intro hodd
              exfalso
              apply hok
              rcases hodd with ⟨k, hk⟩
              exact ⟨k - 1, by omega⟩

theorem find_tokens_loop_adequate {s d : List Char} (hd : d ≠ []) :
    ∀ fuel t, t ≤ s.length → s.length + 1 - t ≤ fuel →
      find_tokens_loop s d fuel (some t) ≠ none := by
  have hdl : 0 < d.length := List.length_pos.mpr hd
  intro fuel
  induction fuel with
  | zero =>
    intro t ht hf
    omega
  | succ f ih =>
    intro t ht hf
    cases hc : findD s d (t + d.length) with
    | none => simp [find_tokens_loop, hc]
    | some close =>
      have hcb := findD_bounds hd hc
      cases hn : findD s d (close + d.length) with
      | none =>
        simp only [find_tokens_loop, hc, hn]
        split <;> simp
      | some t2 =>
        have ht2 := findD_bounds hd hn
        have hrec : find_tokens_loop s d f (some t2) ≠ none :=
          ih t2 (by omega) (by omega)
        simp only [find_tokens_loop, hc, hn]
        obtain ⟨r', hr⟩ : ∃ r', find_tokens_loop s d f (some t2) = some r' := by
          cases hx : find_tokens_loop s d f (some t2) with
          | none => exact absurd hx hrec
          | some r2 => exact ⟨r2, rfl⟩
        rw [hr]
        cases r' with
        | error e => simp
        | ok rest =>
          split
          · rename_i heq
            exact absurd heq (by simp)
          · simp
          · split <;> simp

theorem find_tokens_adequate {s d : List Char} (hd : d ≠ []) :
    find_tokens s d ≠ none := by
  unfold find_tokens
  cases hc : findD s d 0 with
  | none => simp [find_tokens_loop]
  | some t =>
    have hb := findD_bounds hd hc
    exact find_tokens_loop_adequate hd _ t hb.2 (by omega)

theorem interpolate_argument_adequate {s d : List Char} (hd : d ≠ [])
    (status : StatResult) (extra : List (List Char × List Char)) :
    interpolate_argument s d status extra ≠ none := by
  unfold interpolate_argument
  cases hf : find_tokens s d with
  | none => exact absurd hf (find_tokens_adequate hd)
  | some r => cases r <;> simp

/-- The mismatched-delimiter failure: an odd greedy occurrence count makes
`find_tokens`, hence `interpolate_argument`, raise
`ValueError("delimiter mismatch")`. -/
theorem interp_mismatch_of_odd {s d : List Char} (hd : d ≠ [])
    (hodd : Odd (occurrences s d).length) (status : StatResult)
    (extra : List (List Char × List Char)) :
    interpolate_argument s d status extra = some (.error .delimMismatch) := by
  have hocc : occurrences s d = occFromOpt s d (findD s d 0) := by
    unfold occurrences
    exact occFromOpt_findD hd 0
  have hft : find_tokens s d = some (.error .delimMismatch) := by
    cases hf : find_tokens s d with
    | none => exact absurd hf (find_tokens_adequate hd)
    | some r =>
      have hpar := find_tokens_loop_parity hd _ _ _ hf
      rw [← hocc] at hpar
      rw [hpar.mpr hodd]
  unfold interpolate_argument
  rw [hft]

/-- Error propagation through the vector comprehension: if some argument of
the tail hits the mismatch error, the whole comprehension fails (with the
leftmost error raised). -/
theorem interp_args_error {d : List Char} (hd : d ≠ []) (status : StatResult)
    (extra : List (List Char × List Char)) :
    ∀ rest arg, arg ∈ rest →
      interpolate_argument arg d status extra = some (.error .delimMismatch) →
      isErrOpt (interp_args d status extra rest) = true := by
  intro rest
  induction rest with
  | nil =>
    intro arg h
    exact absurd h (List.not_mem_nil arg)
  | cons a tail ih =>
    intro arg hmem harg
    rcases List.mem_cons.mp hmem with rfl | htail
    · simp only [interp_args, harg, isErrOpt]
    · simp only [interp_args]
      cases ha : interpolate_argument a d status extra with
      | none => exact absurd ha (interpolate_argument_adequate hd status extra)
      | some r =>
        cases r with
        | error e => simp [isErrOpt]
        | ok v =>
          have := ih arg htail harg
          cases ht : interp_args d status extra tail with
          | none => rw [ht] at this; simp [isErrOpt] at this
          | some r2 =>
            rw [ht] at this
            cases r2 with
            | error e => simp [isErrOpt]
            | ok vs => simp [isErrOpt] at this

theorem strFind_append_cons {a r : List Char} {c : Char} (hc : c ∉ a) :
    strFind (a ++ c :: r) [c] = some a.length := by
  induction a with
  | nil => simp [strFind, List.isPrefixOf]
  | cons x a' ih =>
    have hx : c ≠ x := fun h => hc (h ▸ List.mem_cons_self x a')
    have hc' : c ∉ a' := fun h => hc (List.mem_cons_of_mem x h)
    have hpre : ([c].isPrefixOf (x :: (a' ++ c :: r))) = false := by
      simp [List.isPrefixOf, hx]
    simp [List.cons_append, strFind, hpre, ih hc']

theorem strFind_not_mem {b : List Char} {c : Char} (hc : c ∉ b) :
    strFind b [c] = none := by
  induction b with
  | nil => simp [strFind]
  | cons x b' ih =>
    have hx : c ≠ x := fun h => hc (h ▸ List.mem_cons_self x b')
    have hc' : c ∉ b' := fun h => hc (List.mem_cons_of_mem x h)
    have hpre : ([c].isPrefixOf (x :: b')) = false := by
      simp [List.isPrefixOf, hx]
    simp [strFind, hpre, ih hc']

/-- C1 (corrected): in `a DELIM DELIM b` with the delimiter occurring nowhere
else, `find_tokens` yields no token at all for the empty key (no
substitution), and `interpolate_argument` copies the whole string — the two
delimiter characters included — verbatim to the output, rather than dropping
them. -/
theorem claim1_empty_key_copied (a b : List Char) (c : Char)
    (status : StatResult) (extra : List (List Char × List Char))
    (ha : c ∉ a) (hb : c ∉ b) :
    find_tokens (a ++ c :: c :: b) [c] = some (.ok []) ∧
    interpolate_argument (a ++ c :: c :: b) [c] status extra =
      some (.ok (a ++ c :: c :: b)) := by
  have h0 : findD (a ++ c :: c :: b) [c] 0 = some a.length := by
    simp [findD, strFind_append_cons ha]
  have hdrop1 : (a ++ c :: c :: b).drop (a.length + 1) = c :: b := by
    have hsplit : a ++ c :: c :: b = (a ++ [c]) ++ c :: b := by simp
    rw [hsplit, show a.length + 1 = (a ++ [c]).length by simp, List.drop_left]
  have h1 : findD (a ++ c :: c :: b) [c] (a.length + 1) = some (a.length + 1) := by
    simp [findD, hdrop1, strFind, List.isPrefixOf]
  have hdrop2 : (a ++ c :: c :: b).drop (a.length + 1 + 1) = b := by
    have hsplit : a ++ c :: c :: b = (a ++ [c, c]) ++ b := by simp
    rw [hsplit, show a.length + 1 + 1 = (a ++ [c, c]).length by simp,
      List.drop_left]
  have h2 : findD (a ++ c :: c :: b) [c] (a.length + 1 + 1) = none := by
    simp [findD, hdrop2, strFind_not_mem hb]
  have hft : find_tokens (a ++ c :: c :: b) [c] = some (.ok []) := by
    unfold find_tokens
    rw [h0]
    simp [find_tokens_loop, h1, h2]
  refine ⟨hft, ?_⟩
  simp [interpolate_argument, hft, interp_go]

/-- C1 witness: a concrete instance of the amended statement. -/
theorem claim1_witness :
    find_tokens ['x', '|', '|', 'y'] ['|'] = some (.ok []) ∧
    interpolate_argument ['x', '|', '|', 'y'] ['|'] (mtimeStat 0) [] =
      some (.ok ['x', '|', '|', 'y']) :=
  claim1_empty_key_copied ['x'] ['y'] '|' (mtimeStat 0) [] (by decide) (by decide)

/-- C1 counterexample: the claim says the two delimiters of `a||b` are
dropped from the output (yielding `ab`); instead interpolation returns the
input unchanged, with both delimiter characters still present. -/
theorem claim1_counterexample :
    interpolate_argument ['a', '|', '|', 'b'] ['|'] (mtimeStat 0) [] =
      some (.ok ['a', '|', '|', 'b']) ∧
    (['a', '|', '|', 'b'] : List Char) ≠ ['a', 'b'] := by
  constructor
  · decide
  · decide

/-- C2 (code bug): resolution is not case-insensitive.  For the key `MTIME`
the membership test lowercases (`key.lower() in rstat_info` succeeds) but
the fetch `rstat_info[key]` does not, so interpolation raises
`KeyError('MTIME')` instead of substituting the mtime value — for every
status snapshot. -/
theorem claim2_uppercase_key_keyerror (status : StatResult) :
    interpolate_argument ['|', 'M', 'T', 'I', 'M', 'E', '|'] ['|'] status [] =
      some (.error (.keyError ['M', 'T', 'I', 'M', 'E'])) := rfl

/-- C5 (code bug): with `--initial-run` set, `main` evaluates `opts.path`,
an attribute that `parse_args` never binds, so the initial run raises
`AttributeError('path')` instead of invoking the callback once per watched
path. -/
theorem claim5_initial_run_attribute_error :
    main_initial_run true = .error (.attributeError ['p', 'a', 't', 'h']) := by
  decide

/-- C6: an odd greedy count of delimiter occurrences in an argument fails
that argument with the mismatched-delimiter `ValueError`; an odd count in
any tail argument makes the whole vector interpolation fail; and a
successful vector interpolation always returns `argv[0]` unchanged in
position 0. -/
theorem claim6_odd_delimiters (d : List Char) (status : StatResult)
    (extra : List (List Char × List Char)) (s a0 arg : List Char)
    (rest : List (List Char)) (res : List (List Char))
    (hd : d ≠ []) (hmem : arg ∈ rest) :
    (Odd (occurrences s d).length →
      interpolate_argument s d status extra = some (.error .delimMismatch)) ∧
    (Odd (occurrences arg d).length →
      isErrOpt (interpolate_argument_vector (a0 :: rest) d status extra) = true) ∧
    (interpolate_argument_vector (a0 :: rest) d status extra = some (.ok res) →
      res.head? = some a0) := by
  refine ⟨fun hodd => interp_mismatch_of_odd hd hodd status extra,
    fun hodd => ?_, fun hok => ?_⟩
  · have harg := interp_mismatch_of_odd (s := arg) hd hodd status extra
    have herr := interp_args_error hd status extra rest arg hmem harg
    cases hargs : interp_args d status extra rest with
    | none =>
      rw [hargs] at herr
      exact absurd herr (by simp [isErrOpt])
    | some r =>
      rw [hargs] at herr
      cases r with
      | error e => simp [interpolate_argument_vector, hargs, isErrOpt]
      | ok v => exact absurd herr (by simp [isErrOpt])
  · cases hargs : interp_args d status extra rest with
    | none => simp [interpolate_argument_vector, hargs] at hok
    | some r =>
      cases r with
      | error e => simp [interpolate_argument_vector, hargs] at hok
      | ok ss =>
        simp only [interpolate_argument_vector, hargs, Option.some_inj,
          Except.ok.injEq] at hok
        rw [← hok]
        rfl

/-- C6 witness: delimiter `|`, argument `x|` with one (odd) occurrence. -/
theorem claim6_witness :
    (Odd (occurrences ['a', '|', 'b'] ['|']).length →
      interpolate_argument ['a', '|', 'b'] ['|'] (mtimeStat 0) [] =
        some (.error .delimMismatch)) ∧
    (Odd (occurrences ['x', '|'] ['|']).length →
      isErrOpt (interpolate_argument_vector [['c'], ['x', '|']] ['|']
        (mtimeStat 0) []) = true) ∧
    (interpolate_argument_vector [['c'], ['x', '|']] ['|'] (mtimeStat 0) [] =
        some (.ok []) → ([] : List (List Char)).head? = some ['c']) :=
  claim6_odd_delimiters ['|'] (mtimeStat 0) [] ['a', '|', 'b'] ['c']
    ['x', '|'] [['x', '|']] [] (by decide) (by decide)

/-! ### Lemmas about one step of the per-path loop -/

theorem entryTail_calls (clock : Nat → ℚ) (limit : Int) (soft hard : ℚ)
    (path : Nat) (ns : Option StatResult) (st : LoopState)
    (cont : Option Bool) (calls : List CallRec) :
    entryCalls (entryTail clock limit soft hard path ns st cont calls) = calls := by
  simp only [entryTail]
  split <;> rfl

theorem entryTail_stats (clock : Nat → ℚ) (limit : Int) (soft hard : ℚ)
    (path : Nat) (ns : Option StatResult) (st : LoopState)
    (cont : Option Bool) (calls : List CallRec) (q : Nat) :
    entryStats (entryTail clock limit soft hard path ns st cont calls) q =
      if q = path then ns else st.stats q := by
  simp only [entryTail]
  split <;> rfl

theorem entryTail_ncalls (clock : Nat → ℚ) (limit : Int) (soft hard : ℚ)
    (path : Nat) (ns : Option StatResult) (st : LoopState)
    (cont : Option Bool) (calls : List CallRec) :
    entryNcalls (entryTail clock limit soft hard path ns st cont calls) =
      st.ncalls := by
  simp only [entryTail]
  split <;> rfl

/-- Shape of `processEntry` when the path exists and nothing differs:
no callback, fall through to lines 238-246. -/
theorem processEntry_no_diff (statFn : Nat → Nat → Except OsErr StatResult)
    (clock : Nat → ℚ) (cb : Callback) (limit : Int) (soft hard : ℚ)
    (retry : Bool) (cycle path : Nat) (fl : List Nat) (st : LoopState)
    (continu : Option Bool) (calls : List CallRec) (nst : StatResult)
    (hstat : statFn cycle path = .ok nst)
    (hdiff : diff_fields (if fl = [] then [ST_MTIME] else fl) (st.stats path)
      nst = ∅) :
    processEntry statFn clock cb limit soft hard retry cycle path fl st
        continu calls =
      entryTail clock limit soft hard path (some nst) st continu calls := by
  simp only [processEntry, hstat, try_stat]
  rw [if_neg (fun hne => hne hdiff)]

/-- Shape of `processEntry` when the callback fires and returns the stop
value: immediate break with the snapshot dict untouched (line 236). -/
theorem processEntry_stop (statFn : Nat → Nat → Except OsErr StatResult)
    (clock : Nat → ℚ) (cb : Callback) (limit : Int) (soft hard : ℚ)
    (retry : Bool) (cycle path : Nat) (fl : List Nat) (st : LoopState)
    (continu : Option Bool) (calls : List CallRec) (nst : StatResult)
    (hstat : statFn cycle path = .ok nst)
    (hdiff : diff_fields (if fl = [] then [ST_MTIME] else fl) (st.stats path)
      nst ≠ ∅)
    (hpf : pyFalsy (cb path (diff_fields (if fl = [] then [ST_MTIME] else fl)
      (st.stats path) nst) (st.stats path) nst) = true) :
    processEntry statFn clock cb limit soft hard retry cycle path fl st
        continu calls =
      .breakNow ⟨st.ncalls + 1, st.now, st.stats, st.clk⟩
        (cb path (diff_fields (if fl = [] then [ST_MTIME] else fl)
          (st.stats path) nst) (st.stats path) nst)
        (calls ++ [⟨path, diff_fields (if fl = [] then [ST_MTIME] else fl)
          (st.stats path) nst, st.stats path, nst⟩]) := by
  simp only [processEntry, hstat, try_stat]
  rw [if_pos hdiff, if_pos hpf]

/-- Shape of `processEntry` when the callback fires and does not request a
stop: the fresh snapshot is stored and the tail checks run. -/
theorem processEntry_go (statFn : Nat → Nat → Except OsErr StatResult)
    (clock : Nat → ℚ) (cb : Callback) (limit : Int) (soft hard : ℚ)
    (retry : Bool) (cycle path : Nat) (fl : List Nat) (st : LoopState)
    (continu : Option Bool) (calls : List CallRec) (nst : StatResult)
    (hstat : statFn cycle path = .ok nst)
    (hdiff : diff_fields (if fl = [] then [ST_MTIME] else fl) (st.stats path)
      nst ≠ ∅)
    (hpf : pyFalsy (cb path (diff_fields (if fl = [] then [ST_MTIME] else fl)
      (st.stats path) nst) (st.stats path) nst) = false) :
    processEntry statFn clock cb limit soft hard retry cycle path fl st
        continu calls =
      entryTail clock limit soft hard path (some nst)
        ⟨st.ncalls + 1, st.now, st.stats, st.clk⟩
        (cb path (diff_fields (if fl = [] then [ST_MTIME] else fl)
          (st.stats path) nst) (st.stats path) nst)
        (calls ++ [⟨path, diff_fields (if fl = [] then [ST_MTIME] else fl)
          (st.stats path) nst, st.stats path, nst⟩]) := by
  simp only [processEntry, hstat, try_stat]
  rw [if_pos hdiff, if_neg (by rw [hpf]; exact Bool.false_ne_true)]

/-- C7: a watch entry whose last-known state is "no snapshot" and whose path
now exists fires the callback with diff equal to the full configured field
set (the configured fields, defaulted to mtime when empty), regardless of
the actual field values. -/
theorem claim7_created_full_diff (statFn : Nat → Nat → Except OsErr StatResult)
    (clock : Nat → ℚ) (cb : Callback) (limit : Int) (soft hard : ℚ)
    (retry : Bool) (cycle path : Nat) (fl : List Nat) (st : LoopState)
    (continu : Option Bool) (calls : List CallRec) (nst : StatResult)
    (hstat : statFn cycle path = .ok nst) (hlast : st.stats path = none) :
    entryCalls (processEntry statFn clock cb limit soft hard retry cycle path
        fl st continu calls) =
      calls ++ [⟨path, (if fl = [] then [ST_MTIME] else fl).toFinset, none, nst⟩] := by
  have hne : (if fl = [] then [ST_MTIME] else fl) ≠ [] := by
    split
    · simp
    · rename_i h
      exact h
  have hdiffeq : diff_fields (if fl = [] then [ST_MTIME] else fl)
      (st.stats path) nst = (if fl = [] then [ST_MTIME] else fl).toFinset := by
    rw [hlast]
    rfl
  have hdne : diff_fields (if fl = [] then [ST_MTIME] else fl) (st.stats path)
      nst ≠ ∅ := by
    rw [hdiffeq, ne_eq, List.toFinset_eq_empty_iff]
    exact hne
  cases hpf : pyFalsy (cb path (diff_fields (if fl = [] then [ST_MTIME] else fl)
      (st.stats path) nst) (st.stats path) nst) with
  | true =>
    rw [processEntry_stop statFn clock cb limit soft hard retry cycle path fl
      st continu calls nst hstat hdne hpf]
    simp [entryCalls, hlast, diff_fields]
  | false =>
    rw [processEntry_go statFn clock cb limit soft hard retry cycle path fl
      st continu calls nst hstat hdne hpf, entryTail_calls]
    simp [hlast, diff_fields]

/-- C7 witness: one path with no configured fields appearing for the first
time fires with diff `{mtime}`. -/
theorem claim7_witness :
    entryCalls (processEntry (fun _ _ => .ok (mtimeStat 1)) (fun _ => 0) cbNone
        0 qMaxsize qMaxsize false 1 0 [] ⟨0, 0, fun _ => none, 1⟩ (some true) []) =
      [] ++ [⟨0, (if ([] : List Nat) = [] then [ST_MTIME] else []).toFinset,
        none, mtimeStat 1⟩] :=
  claim7_created_full_diff (fun _ _ => .ok (mtimeStat 1)) (fun _ => 0) cbNone
    0 qMaxsize qMaxsize false 1 0 [] ⟨0, 0, fun _ => none, 1⟩ (some true) []
    (mtimeStat 1) rfl rfl

/-- C10: a watch entry with an empty configured field set watches exactly
mtime: a poll where mtime is unchanged (whatever the other nine fields do)
never invokes the callback, and a poll where mtime changed invokes it with
diff `{mtime}`. -/
theorem claim10_default_mtime (statFn : Nat → Nat → Except OsErr StatResult)
    (clock : Nat → ℚ) (cb : Callback) (limit : Int) (soft hard : ℚ)
    (retry : Bool) (cycle path : Nat) (st : LoopState)
    (continu : Option Bool) (calls : List CallRec) (lst nst : StatResult)
    (hstat : statFn cycle path = .ok nst) (hlast : st.stats path = some lst) :
    (statIndex lst ST_MTIME = statIndex nst ST_MTIME →
      entryCalls (processEntry statFn clock cb limit soft hard retry cycle path
        [] st continu calls) = calls ∧
      entryNcalls (processEntry statFn clock cb limit soft hard retry cycle path
        [] st continu calls) = st.ncalls) ∧
    (statIndex lst ST_MTIME ≠ statIndex nst ST_MTIME →
      entryCalls (processEntry statFn clock cb limit soft hard retry cycle path
        [] st continu calls) =
        calls ++ [⟨path, [ST_MTIME].toFinset, some lst, nst⟩] ∧
      entryNcalls (processEntry statFn clock cb limit soft hard retry cycle path
        [] st continu calls) = st.ncalls + 1) := by
  constructor
  · intro heq
    have hdz : diff_fields (if ([] : List Nat) = [] then [ST_MTIME] else [])
        (st.stats path) nst = ∅ := by
      rw [hlast]
      show diff_fields [ST_MTIME] (some lst) nst = ∅
      simp [diff_fields, List.filter_cons, heq]
    rw [processEntry_no_diff statFn clock cb limit soft hard retry cycle path
      [] st continu calls nst hstat hdz, entryTail_calls, entryTail_ncalls]
    exact ⟨rfl, rfl⟩
  · intro hnem
    have hb : (statIndex lst ST_MTIME != statIndex nst ST_MTIME) = true :=
      bne_iff_ne.mpr hnem
    have hdval : diff_fields (if ([] : List Nat) = [] then [ST_MTIME] else [])
        (st.stats path) nst = [ST_MTIME].toFinset := by
      rw [hlast]
      show diff_fields [ST_MTIME] (some lst) nst = [ST_MTIME].toFinset
      simp [diff_fields, List.filter_cons, hb]
    have hdnz : diff_fields (if ([] : List Nat) = [] then [ST_MTIME] else [])
        (st.stats path) nst ≠ ∅ := by
      rw [hdval]
      simp [ST_MTIME]
    cases hpf : pyFalsy (cb path (diff_fields (if ([] : List Nat) = [] then
        [ST_MTIME] else []) (st.stats path) nst) (st.stats path) nst) with
    | true =>
      rw [processEntry_stop statFn clock cb limit soft hard retry cycle path
        [] st continu calls nst hstat hdnz hpf]
      simp [entryCalls, entryNcalls, entryState, hlast, diff_fields,
        List.filter_cons, hb]
    | false =>
      rw [processEntry_go statFn clock cb limit soft hard retry cycle path
        [] st continu calls nst hstat hdnz hpf, entryTail_calls,
        entryTail_ncalls]
      simp [hlast, diff_fields, List.filter_cons, hb]

/-- C10 witness: mtime 0 → 1 with an empty field list fires with `{mtime}`;
the equal-mtime implication is instantiated alongside. -/
theorem claim10_witness :
    (statIndex (mtimeStat 0) ST_MTIME = statIndex (mtimeStat 1) ST_MTIME →
      entryCalls (processEntry (fun _ _ => .ok (mtimeStat 1)) (fun _ => 0)
        cbNone 0 qMaxsize qMaxsize false 1 0 [] st3 (some true) []) = [] ∧
      entryNcalls (processEntry (fun _ _ => .ok (mtimeStat 1)) (fun _ => 0)
        cbNone 0 qMaxsize qMaxsize false 1 0 [] st3 (some true) []) = st3.ncalls) ∧
    (statIndex (mtimeStat 0) ST_MTIME ≠ statIndex (mtimeStat 1) ST_MTIME →
      entryCalls (processEntry (fun _ _ => .ok (mtimeStat 1)) (fun _ => 0)
        cbNone 0 qMaxsize qMaxsize false 1 0 [] st3 (some true) []) =
        [] ++ [⟨0, [ST_MTIME].toFinset, some (mtimeStat 0), mtimeStat 1⟩] ∧
      entryNcalls (processEntry (fun _ _ => .ok (mtimeStat 1)) (fun _ => 0)
        cbNone 0 qMaxsize qMaxsize false 1 0 [] st3 (some true) []) =
        st3.ncalls + 1) :=
  claim10_default_mtime (fun _ _ => .ok (mtimeStat 1)) (fun _ => 0) cbNone
    0 qMaxsize qMaxsize false 1 0 st3 (some true) [] (mtimeStat 0) (mtimeStat 1)
    rfl rfl

/-- C3 (corrected): after the callback fires, the stored snapshot for the
path is updated to the fresh one only when the callback does not request a
stop; when the callback returns the stop value, the per-path loop breaks
immediately (line 236) before line 238 runs, leaving the stored snapshot
unchanged — the loop then terminates, so the stale entry is never read. -/
theorem claim3_snapshot_update (statFn : Nat → Nat → Except OsErr StatResult)
    (clock : Nat → ℚ) (cb : Callback) (limit : Int) (soft hard : ℚ)
    (retry : Bool) (cycle path : Nat) (fl : List Nat) (st : LoopState)
    (continu : Option Bool) (calls : List CallRec) (nst : StatResult)
    (hstat : statFn cycle path = .ok nst)
    (hdiff : diff_fields (if fl = [] then [ST_MTIME] else fl) (st.stats path)
      nst ≠ ∅) :
    (pyFalsy (cb path (diff_fields (if fl = [] then [ST_MTIME] else fl)
        (st.stats path) nst) (st.stats path) nst) = false →
      entryStats (processEntry statFn clock cb limit soft hard retry cycle
        path fl st continu calls) path = some nst) ∧
    (pyFalsy (cb path (diff_fields (if fl = [] then [ST_MTIME] else fl)
        (st.stats path) nst) (st.stats path) nst) = true →
      entryStats (processEntry statFn clock cb limit soft hard retry cycle
        path fl st continu calls) path = st.stats path ∧
      entryBroke (processEntry statFn clock cb limit soft hard retry cycle
        path fl st continu calls) = true) := by
  constructor
  · intro hpf
    rw [processEntry_go statFn clock cb limit soft hard retry cycle path fl
      st continu calls nst hstat hdiff hpf, entryTail_stats]
    simp
  · intro hpf
    rw [processEntry_stop statFn clock cb limit soft hard retry cycle path fl
      st continu calls nst hstat hdiff hpf]
    exact ⟨rfl, rfl⟩

/-- C3 witness: a stop-returning callback leaves the old snapshot stored and
breaks the loop. -/
theorem claim3_witness :
    (pyFalsy (cbStop 0 (diff_fields (if ([] : List Nat) = [] then [ST_MTIME]
        else []) (st3.stats 0) (mtimeStat 1)) (st3.stats 0) (mtimeStat 1)) =
        false →
      entryStats (processEntry (fun _ _ => .ok (mtimeStat 1)) (fun _ => 0)
        cbStop 0 qMaxsize qMaxsize false 1 0 [] st3 (some true) []) 0 =
        some (mtimeStat 1)) ∧
    (pyFalsy (cbStop 0 (diff_fields (if ([] : List Nat) = [] then [ST_MTIME]
        else []) (st3.stats 0) (mtimeStat 1)) (st3.stats 0) (mtimeStat 1)) =
        true →
      entryStats (processEntry (fun _ _ => .ok (mtimeStat 1)) (fun _ => 0)
        cbStop 0 qMaxsize qMaxsize false 1 0 [] st3 (some true) []) 0 =
        st3.stats 0 ∧
      entryBroke (processEntry (fun _ _ => .ok (mtimeStat 1)) (fun _ => 0)
        cbStop 0 qMaxsize qMaxsize false 1 0 [] st3 (some true) []) = true) :=
  claim3_snapshot_update (fun _ _ => .ok (mtimeStat 1)) (fun _ => 0) cbStop
    0 qMaxsize qMaxsize false 1 0 [] st3 (some true) [] (mtimeStat 1)
    rfl (by decide)

/-- C3 counterexample: the claim says the stored snapshot is updated to the
fresh one even when the callback returns the stop value; here the callback
returns `False` and the stored snapshot for the path is still the old one,
which differs from the fresh one. -/
theorem claim3_counterexample :
    entryStats (processEntry (fun _ _ => .ok (mtimeStat 1)) (fun _ => 0)
        cbStop 0 qMaxsize qMaxsize false 1 0 [] st3 (some true) []) 0 =
      some (mtimeStat 0) ∧ mtimeStat 0 ≠ mtimeStat 1 := by
  constructor
  · decide
  · decide

/-- C4 (code bug): a reachable loop state — callback already fired, soft
deadline passed, hard deadline still ahead — makes
`sleep_dur = min(softtimeout - now, ...)` negative, and `time.sleep` then
raises `ValueError` instead of performing a valid bounded wait: with
`softtimeout=5`, a change on the first poll and the clock then reading 6,
the run aborts with the sleep `ValueError`. -/
theorem claim4_negative_sleep :
    runResult (watchstat statFn4 clock4 cbNone [(0, [])] 1000 0 false 5 0 6) =
      some (.error .sleepValueError) := by
  norm_num [watchstat, runCycles, processPaths, processEntry, entryTail,
    initStats, try_stat, statFn4, clock4, cbNone, softDeadline, hardDeadline,
    qMaxsize, diff_fields, statIndex, mtimeStat, pyFalsy, runResult, epilogue,
    ST_MTIME]

/-- Case analysis of the termination epilogue (lines 252-258): which outcome
the final `ncalls`/`now` pair produces. -/
theorem outcome_ite_spec (soft hard : ℚ) (ncalls : Nat) (now : ℚ)
    (out : Outcome2)
    (h : (if ncalls = 0 ∧ soft ≤ now then Outcome2.softTO
          else if hard ≤ now then Outcome2.hardTO
          else Outcome2.normal ncalls) = out) :
    (out = .softTO ↔ (ncalls = 0 ∧ soft ≤ now)) ∧
    ((1 ≤ ncalls ∧ hard ≤ now) → out = .hardTO) ∧
    ((now < soft ∧ now < hard) → out = .normal ncalls) := by
  subst h
  by_cases h1 : ncalls = 0 ∧ soft ≤ now
  · rw [if_pos h1]
    refine ⟨⟨fun _ => h1, fun _ => rfl⟩, ?_, ?_⟩
    · intro hc
      have := h1.1
      omega
    · intro hc
      exact absurd h1.2 (not_le.mpr hc.1)
  · rw [if_neg h1]
    by_cases h2 : hard ≤ now
    · rw [if_pos h2]
      refine ⟨⟨fun hco => Outcome2.noConfusion hco, fun hr => absurd hr h1⟩,
        fun _ => rfl, ?_⟩
      intro hc
      exact absurd h2 (not_le.mpr hc.2)
    · rw [if_neg h2]
      refine ⟨⟨fun hco => Outcome2.noConfusion hco, fun hr => absurd hr h1⟩,
        ?_, fun _ => rfl⟩
      intro hc
      exact absurd hc.2 h2

/-- C8: whenever the loop terminates normally (no stat/sleep exception), its
outcome is exactly the epilogue of the final state: `SoftTimeout` precisely
when no callback ran and the soft deadline passed (taking precedence over
`Timeout`), `Timeout` whenever at least one callback ran and the hard
deadline passed, and a plain return of the invocation count when neither
deadline has been reached (limit reached or callback stop). -/
theorem claim8_timeout_outcomes (statFn : Nat → Nat → Except OsErr StatResult)
    (clock : Nat → ℚ) (cb : Callback) (watchlist : List (Nat × List Nat))
    (limit interval : Int) (soft hard : ℚ) (retry : Bool) (fuel cycle : Nat)
    (st : LoopState) (calls : List CallRec) (out : Outcome2) (n : Nat) (t : ℚ)
    (h : (runCycles statFn clock cb watchlist limit interval soft hard retry
      fuel cycle st calls).map (fun r => (r.result, r.final.ncalls, r.final.now)) =
      some (.ok out, n, t)) :
    (out = .softTO ↔ (n = 0 ∧ soft ≤ t)) ∧
    ((1 ≤ n ∧ hard ≤ t) → out = .hardTO) ∧
    ((t < soft ∧ t < hard) → out = .normal n) := by
  induction fuel generalizing cycle st calls with
  | zero => simp [runCycles] at h
  | succ f ih =>
    simp only [runCycles] at h
    split at h
    · split at h
      · simp at h
      · split at h
        · simp only [Option.map_some', Option.some_inj, epilogue,
            Prod.mk.injEq, Except.ok.injEq] at h
          rcases h with ⟨h1, h2, h3⟩
          subst h2
          subst h3
          exact outcome_ite_spec _ _ _ _ _ h1
        · split at h
          · simp at h
          · split at h
            · simp only [Option.map_some', Option.some_inj, epilogue,
                Prod.mk.injEq, Except.ok.injEq] at h
              rcases h with ⟨h1, h2, h3⟩
              subst h2
              subst h3
              exact outcome_ite_spec _ _ _ _ _ h1
            · exact ih _ _ _ h
    · simp only [Option.map_some', Option.some_inj, epilogue,
        Prod.mk.injEq, Except.ok.injEq] at h
      rcases h with ⟨h1, h2, h3⟩
      subst h2
      subst h3
      exact outcome_ite_spec _ _ _ _ _ h1

/-- C8 witness: a run whose soft deadline is already behind the start time
and whose while-condition fails immediately raises `SoftTimeout`. -/
theorem claim8_witness :
    (Outcome2.softTO = .softTO ↔ ((0 : Nat) = 0 ∧ (-1 : ℚ) ≤ 0)) ∧
    ((1 ≤ (0 : Nat) ∧ qMaxsize ≤ (0 : ℚ)) → Outcome2.softTO = .hardTO) ∧
    (((0 : ℚ) < -1 ∧ (0 : ℚ) < qMaxsize) → Outcome2.softTO = .normal 0) :=
  claim8_timeout_outcomes (fun _ _ => .ok (mtimeStat 0)) (fun _ => 0) cbNone
    [] 0 1000 (-1) qMaxsize false 1 1 ⟨0, 0, fun _ => none, 0⟩ []
    .softTO 0 0 (by decide)

/-- `entryTail` when one of the line 240-244 break conditions holds. -/
theorem entryTail_break (clock : Nat → ℚ) (limit : Int) (soft hard : ℚ)
    (path : Nat) (ns : Option StatResult) (st : LoopState)
    (cont : Option Bool) (calls : List CallRec)
    (h : (0 < limit ∧ limit ≤ (st.ncalls : Int)) ∨
      (st.ncalls = 0 ∧ soft ≤ clock st.clk) ∨ hard ≤ clock st.clk) :
    entryTail clock limit soft hard path ns st cont calls =
      .breakNow ⟨st.ncalls, clock st.clk,
        fun q => if q = path then ns else st.stats q, st.clk + 1⟩
        (some false) calls := by
  simp only [entryTail]
  rw [if_pos h]

/-- `entryTail` when no break condition holds: fall through to the next
watch entry. -/
theorem entryTail_continue (clock : Nat → ℚ) (limit : Int) (soft hard : ℚ)
    (path : Nat) (ns : Option StatResult) (st : LoopState)
    (cont : Option Bool) (calls : List CallRec)
    (h : ¬ ((0 < limit ∧ limit ≤ (st.ncalls : Int)) ∨
      (st.ncalls = 0 ∧ soft ≤ clock st.clk) ∨ hard ≤ clock st.clk)) :
    entryTail clock limit soft hard path ns st cont calls =
      .continueNext ⟨st.ncalls, clock st.clk,
        fun q => if q = path then ns else st.stats q, st.clk + 1⟩
        cont calls := by
  simp only [entryTail]
  rw [if_neg h]

/-- One `processPaths` step that breaks out of the `for` loop. -/
theorem processPaths_cons_break (statFn : Nat → Nat → Except OsErr StatResult)
    (clock : Nat → ℚ) (cb : Callback) (limit : Int) (soft hard : ℚ)
    (retry : Bool) (cycle path : Nat) (fl : List Nat)
    (rest : List (Nat × List Nat)) (st st' : LoopState)
    (continu c' : Option Bool) (calls calls' : List CallRec)
    (h : processEntry statFn clock cb limit soft hard retry cycle path fl st
      continu calls = .breakNow st' c' calls') :
    processPaths statFn clock cb limit soft hard retry cycle
        ((path, fl) :: rest) st continu calls = .ok ⟨st', c', true, calls'⟩ := by
  simp only [processPaths, h]

/-- One `processPaths` step that falls through to the remaining entries. -/
theorem processPaths_cons_continue (statFn : Nat → Nat → Except OsErr StatResult)
    (clock : Nat → ℚ) (cb : Callback) (limit : Int) (soft hard : ℚ)
    (retry : Bool) (cycle path : Nat) (fl : List Nat)
    (rest : List (Nat × List Nat)) (st st' : LoopState)
    (continu c' : Option Bool) (calls calls' : List CallRec)
    (h : processEntry statFn clock cb limit soft hard retry cycle path fl st
      continu calls = .continueNext st' c' calls') :
    processPaths statFn clock cb limit soft hard retry cycle
        ((path, fl) :: rest) st continu calls =
      processPaths statFn clock cb limit soft hard retry cycle rest st' c'
        calls' := by
  simp only [processPaths, h]

/-- One full pass over the watch entries with `limit = 2`: when every entry's
path exists and differs from its stored snapshot and the callback never
requests a stop, the pass either reaches exactly 2 calls and breaks with
`continu = False`, or fires once per entry and falls through with the
snapshot map advanced one cycle. -/
theorem processPaths_two (statFn : Nat → Nat → Except OsErr StatResult)
    (clock : Nat → ℚ) (cb : Callback) (soft hard : ℚ) (retry : Bool)
    (σ : Nat → Nat → StatResult) (j : Nat)
    (hstat : ∀ kk p, statFn kk p = .ok (σ kk p))
    (hclock : ∀ m, clock m < soft ∧ clock m < hard)
    (hcb : ∀ p dd o m, pyFalsy (cb p dd o m) = false) :
    ∀ (entries : List (Nat × List Nat)) (st : LoopState) (continu : Option Bool)
      (calls : List CallRec),
      (∀ p fl, (p, fl) ∈ entries →
        diff_fields (if fl = [] then [ST_MTIME] else fl) (some (σ j p))
          (σ (j + 1) p) ≠ ∅) →
      (∀ p fl, (p, fl) ∈ entries → st.stats p = some (σ j p)) →
      (entries.map Prod.fst).Nodup →
      st.now < soft → st.now < hard →
      pyFalsy continu = false →
      st.ncalls ≤ 1 →
      ∃ cr, processPaths statFn clock cb 2 soft hard retry (j + 1) entries st
          continu calls = .ok cr ∧
        cr.st.now < soft ∧ cr.st.now < hard ∧
        (2 ≤ st.ncalls + entries.length →
          cr.st.ncalls = 2 ∧ pyFalsy cr.continu = true ∧
          cr.calls.length = calls.length + (2 - st.ncalls)) ∧
        (st.ncalls + entries.length < 2 →
          cr.st.ncalls = st.ncalls + entries.length ∧
          pyFalsy cr.continu = false ∧
          cr.calls.length = calls.length + entries.length ∧
          (∀ p fl, (p, fl) ∈ entries → cr.st.stats p = some (σ (j + 1) p)) ∧
          (∀ q, q ∉ entries.map Prod.fst → cr.st.stats q = st.stats q)) := by
  intro entries
  induction entries with
  | nil =>
    intro st continu calls _ _ _ hns hnh hcont hn1
    refine ⟨⟨st, continu, false, calls⟩, rfl, hns, hnh, ?_, ?_⟩
    · intro habs
      simp only [List.length_nil] at habs
      omega
    · intro _
      exact ⟨by simp, hcont, by simp, by simp, fun q _ => rfl⟩
  | cons e rest ih =>
    obtain ⟨p, fl⟩ := e
    intro st continu calls hde hstats hnd hns hnh hcont hn1
    have hmem : (p, fl) ∈ (p, fl) :: rest := List.mem_cons_self _ _
    have hsp : st.stats p = some (σ j p) := hstats p fl hmem
    have hdiff : diff_fields (if fl = [] then [ST_MTIME] else fl) (st.stats p)
        (σ (j + 1) p) ≠ ∅ := by
      rw [hsp]
      exact hde p fl hmem
    have hpf : pyFalsy (cb p (diff_fields (if fl = [] then [ST_MTIME] else fl)
        (st.stats p) (σ (j + 1) p)) (st.stats p) (σ (j + 1) p)) = false :=
      hcb _ _ _ _
    have hgo := processEntry_go statFn clock cb 2 soft hard retry (j + 1) p fl
      st continu calls (σ (j + 1) p) (hstat _ _) hdiff hpf
    have hndp : p ∉ rest.map Prod.fst ∧ (rest.map Prod.fst).Nodup := by
      rw [List.map_cons, List.nodup_cons] at hnd
      exact hnd
    by_cases hcase : st.ncalls = 0
    · -- first call this cycle: fall through to the rest with ncalls = 1
      have hne : ¬ ((0 < (2 : Int) ∧ (2 : Int) ≤
          (((⟨st.ncalls + 1, st.now, st.stats, st.clk⟩ : LoopState)).ncalls : Int)) ∨
          ((⟨st.ncalls + 1, st.now, st.stats, st.clk⟩ : LoopState).ncalls = 0 ∧
            soft ≤ clock (⟨st.ncalls + 1, st.now, st.stats, st.clk⟩ : LoopState).clk) ∨
          hard ≤ clock (⟨st.ncalls + 1, st.now, st.stats, st.clk⟩ : LoopState).clk) := by
        rintro (⟨_, h2⟩ | ⟨h0, _⟩ | h3)
        · simp only [hcase] at h2
          omega
        · simp [hcase] at h0
        · exact absurd h3 (not_le.mpr (hclock st.clk).2)
      have hct := entryTail_continue clock 2 soft hard p (some (σ (j + 1) p))
        ⟨st.ncalls + 1, st.now, st.stats, st.clk⟩
        (cb p (diff_fields (if fl = [] then [ST_MTIME] else fl) (st.stats p)
          (σ (j + 1) p)) (st.stats p) (σ (j + 1) p))
        (calls ++ [⟨p, diff_fields (if fl = [] then [ST_MTIME] else fl)
          (st.stats p) (σ (j + 1) p), st.stats p, σ (j + 1) p⟩]) hne
      have hstep := processPaths_cons_continue statFn clock cb 2 soft hard
        retry (j + 1) p fl rest st _ continu _ calls _ (hgo.trans hct)
      obtain ⟨cr, hcr, hcs, hch, hA, hB⟩ := ih
        ⟨st.ncalls + 1, clock st.clk,
          fun q => if q = p then some (σ (j + 1) p) else st.stats q, st.clk + 1⟩
        (cb p (diff_fields (if fl = [] then [ST_MTIME] else fl) (st.stats p)
          (σ (j + 1) p)) (st.stats p) (σ (j + 1) p))
        (calls ++ [⟨p, diff_fields (if fl = [] then [ST_MTIME] else fl)
          (st.stats p) (σ (j + 1) p), st.stats p, σ (j + 1) p⟩])
        (fun p' fl' hm => hde p' fl' (List.mem_cons_of_mem _ hm))
        (by
          intro q flq hm
          have hqp : q ≠ p := by
            intro hqe
            exact hndp.1 (hqe ▸ List.mem_map_of_mem Prod.fst hm)
          simp only [hqp, if_false]
          exact hstats q flq (List.mem_cons_of_mem _ hm))
        hndp.2 (hclock st.clk).1 (hclock st.clk).2 (hcb _ _ _ _)
        (by show st.ncalls + 1 ≤ 1; omega)
      have hproj : (⟨st.ncalls + 1, clock st.clk,
          fun q => if q = p then some (σ (j + 1) p) else st.stats q,
          st.clk + 1⟩ : LoopState).ncalls = st.ncalls + 1 := rfl
      have hlen : (calls ++ [(⟨p, diff_fields (if fl = [] then [ST_MTIME]
          else fl) (st.stats p) (σ (j + 1) p), st.stats p,
          σ (j + 1) p⟩ : CallRec)]).length = calls.length + 1 := by simp
      refine ⟨cr, by rw [hstep]; exact hcr, hcs, hch, ?_, ?_⟩
      · intro h2
        simp only [List.length_cons] at h2
        obtain ⟨ha1, ha2, ha3⟩ := hA (by rw [hproj]; omega)
        exact ⟨ha1, ha2, by rw [ha3, hlen, hproj]; omega⟩
      · intro hlt
        simp only [List.length_cons] at hlt
        have hrest0 : rest.length = 0 := by omega
        obtain ⟨hb1, hb2, hb3, hb4, hb5⟩ := hB (by rw [hproj]; omega)
        refine ⟨?_, hb2, ?_, ?_, ?_⟩
        · rw [hb1, hproj]
          simp only [List.length_cons]
          omega
        · rw [hb3, hlen]
          simp only [List.length_cons]
          omega
        · intro p' fl' hm
          rcases List.mem_cons.mp hm with he | hm'
          · rw [Prod.mk.injEq] at he
            obtain ⟨rfl, rfl⟩ := he
            rw [hb5 p' hndp.1]
            simp
          · exact hb4 p' fl' hm'
        · intro q hq
          rw [List.map_cons, List.mem_cons] at hq
          push_neg at hq
          rw [hb5 q hq.2]
          simp [hq.1]
    · -- second call this cycle: limit reached, break
      have h1 : st.ncalls = 1 := by omega
      have hbrk := entryTail_break clock 2 soft hard p (some (σ (j + 1) p))
        ⟨st.ncalls + 1, st.now, st.stats, st.clk⟩
        (cb p (diff_fields (if fl = [] then [ST_MTIME] else fl) (st.stats p)
          (σ (j + 1) p)) (st.stats p) (σ (j + 1) p))
        (calls ++ [⟨p, diff_fields (if fl = [] then [ST_MTIME] else fl)
          (st.stats p) (σ (j + 1) p), st.stats p, σ (j + 1) p⟩])
        (Or.inl ⟨by norm_num, by simp [h1]⟩)
      have hstep := processPaths_cons_break statFn clock cb 2 soft hard retry
        (j + 1) p fl rest st _ continu _ calls _ (hgo.trans hbrk)
      refine ⟨_, hstep, (hclock st.clk).1, (hclock st.clk).2, ?_, ?_⟩
      · intro _
        refine ⟨by simp [h1], rfl, ?_⟩
        simp only [List.length_append, List.length_cons, List.length_nil, h1]
      · intro hlt
        simp only [List.length_cons, h1] at hlt
        omega

/-- The initial snapshot pass stores `σ 0 p` for every watched path when
every stat succeeds. -/
theorem initStats_spec (statFn : Nat → Nat → Except OsErr StatResult)
    (retry : Bool) (σ : Nat → Nat → StatResult)
    (hstat : ∀ kk p, statFn kk p = .ok (σ kk p)) :
    ∀ (wl : List (Nat × List Nat)) (acc : Nat → Option StatResult),
      ∃ s0, initStats statFn retry wl acc = .ok s0 ∧
        (∀ p fl, (p, fl) ∈ wl → s0 p = some (σ 0 p)) ∧
        (∀ q, q ∉ wl.map Prod.fst → s0 q = acc q) := by
  intro wl
  induction wl with
  | nil =>
    intro acc
    exact ⟨acc, rfl, by simp, fun q _ => rfl⟩
  | cons e rest ih =>
    obtain ⟨p, fl⟩ := e
    intro acc
    obtain ⟨s0, hs0, hmem, hunch⟩ :=
      ih (fun q => if q = p then some (σ 0 p) else acc q)
    refine ⟨s0, ?_, ?_, ?_⟩
    · simp only [initStats, hstat, try_stat]
      exact hs0
    · intro p' fl' hm
      rcases List.mem_cons.mp hm with he | hm'
      · rw [Prod.mk.injEq] at he
        obtain ⟨rfl, rfl⟩ := he
        by_cases hp : p' ∈ rest.map Prod.fst
        · rw [List.mem_map] at hp
          obtain ⟨⟨q, flq⟩, hq, hqe⟩ := hp
          cases hqe
          exact hmem _ flq hq
        · rw [hunch p' hp]
          simp
      · exact hmem p' fl' hm'
    · intro q hq
      rw [List.map_cons, List.mem_cons] at hq
      push_neg at hq
      rw [hunch q hq.2]
      simp [hq.1]

/-- One poll cycle of the `while` loop with `limit = 2` under a permanently
changing stat stream, a never-stopping callback and deadlines that are never
reached: either the limit is hit during this cycle (the run returns
`ncalls = 2` normally) or every entry fired once and the loop proceeds to
the next cycle with the snapshot map advanced. -/
theorem runCycles_cycle_two (statFn : Nat → Nat → Except OsErr StatResult)
    (clock : Nat → ℚ) (cb : Callback) (wl : List (Nat × List Nat))
    (interval : Int) (soft hard : ℚ) (retry : Bool)
    (σ : Nat → Nat → StatResult) (f j : Nat) (st : LoopState)
    (calls : List CallRec)
    (hstat : ∀ kk p, statFn kk p = .ok (σ kk p))
    (hclock : ∀ m, clock m < soft ∧ clock m < hard)
    (hcb : ∀ p dd o m, pyFalsy (cb p dd o m) = false)
    (hde : ∀ p fl, (p, fl) ∈ wl →
      diff_fields (if fl = [] then [ST_MTIME] else fl) (some (σ j p))
        (σ (j + 1) p) ≠ ∅)
    (hstats : ∀ p fl, (p, fl) ∈ wl → st.stats p = some (σ j p))
    (hnd : (wl.map Prod.fst).Nodup)
    (hint : (0 : Int) ≤ interval)
    (hnow : st.now < soft ∧ st.now < hard)
    (hn1 : st.ncalls ≤ 1) :
    (2 ≤ st.ncalls + wl.length →
      ∃ r, runCycles statFn clock cb wl 2 interval soft hard retry (f + 1)
          (j + 1) st calls = some r ∧
        r.result = .ok (.normal 2) ∧
        r.calls.length = calls.length + (2 - st.ncalls)) ∧
    (st.ncalls + wl.length < 2 →
      ∃ st' calls', runCycles statFn clock cb wl 2 interval soft hard retry
          (f + 1) (j + 1) st calls =
        runCycles statFn clock cb wl 2 interval soft hard retry f (j + 1 + 1)
          st' calls' ∧
        (∀ p fl, (p, fl) ∈ wl → st'.stats p = some (σ (j + 1) p)) ∧
        st'.now < soft ∧ st'.now < hard ∧
        st'.ncalls = st.ncalls + wl.length ∧
        calls'.length = calls.length + wl.length) := by
  have hwc : ((2 : Int) ≤ 0 ∨ (st.ncalls : Int) < 2) ∧
      (0 < st.ncalls ∨ st.now < soft) ∧ st.now < hard :=
    ⟨Or.inr (by omega), Or.inr hnow.1, hnow.2⟩
  have hsleep : ¬ (min (soft - st.now) (min (hard - st.now)
      ((interval : ℚ) / 1000)) < 0) := by
    push_neg
    refine le_min (by linarith [hnow.1]) (le_min (by linarith [hnow.2]) ?_)
    have : (0 : ℚ) ≤ (interval : ℚ) := by exact_mod_cast hint
    positivity
  have hchk : ¬ ((st.ncalls = 0 ∧ soft ≤ clock st.clk) ∨
      hard ≤ clock st.clk) := by
    rintro (⟨_, hs⟩ | hh)
    · exact absurd hs (not_le.mpr (hclock st.clk).1)
    · exact absurd hh (not_le.mpr (hclock st.clk).2)
  obtain ⟨cr, hcr, hcs, hch, hA, hB⟩ := processPaths_two statFn clock cb soft
    hard retry σ j hstat hclock hcb wl
    ⟨st.ncalls, clock st.clk, st.stats, st.clk + 1⟩ (some true) calls hde
    (fun p fl hm => hstats p fl hm) hnd (hclock st.clk).1 (hclock st.clk).2
    rfl (by show st.ncalls ≤ 1; exact hn1)
  have hrun : runCycles statFn clock cb wl 2 interval soft hard retry (f + 1)
      (j + 1) st calls =
      if pyFalsy cr.continu = true then some (epilogue soft hard cr.st cr.calls)
      else runCycles statFn clock cb wl 2 interval soft hard retry f
        (j + 1 + 1) ⟨cr.st.ncalls, clock cr.st.clk, cr.st.stats,
          cr.st.clk + 1⟩ cr.calls := by
    simp only [runCycles]
    rw [if_pos hwc, if_neg hsleep, if_neg hchk, hcr]
  constructor
  · intro h2
    obtain ⟨ha1, ha2, ha3⟩ := hA (by show 2 ≤ st.ncalls + wl.length; omega)
    refine ⟨epilogue soft hard cr.st cr.calls, ?_, ?_, ?_⟩
    · rw [hrun, if_pos ha2]
    · simp only [epilogue]
      rw [if_neg (by rw [ha1]; rintro ⟨h0, _⟩; omega),
        if_neg (not_le.mpr hch), ha1]
    · simp only [epilogue]
      rw [ha3]
  · intro hlt
    obtain ⟨hb1, hb2, hb3, hb4, hb5⟩ :=
      hB (by show st.ncalls + wl.length < 2; omega)
    refine ⟨⟨cr.st.ncalls, clock cr.st.clk, cr.st.stats, cr.st.clk + 1⟩,
      cr.calls, ?_, ?_, (hclock cr.st.clk).1, (hclock cr.st.clk).2, ?_, ?_⟩
    · rw [hrun, if_neg (by rw [hb2]; exact Bool.false_ne_true)]
    · intro p fl hm
      exact hb4 p fl hm
    · exact hb1
    · exact hb3

/-- C9: with `limit = 2`, a non-empty watch list of distinct paths whose
stats change on every poll, a callback that never requests a stop, and
clock readings that never reach the soft or hard deadline, the loop makes
exactly two callback invocations — never more than the limit — and returns
normally with that count (no `Timeout` or `SoftTimeout`). -/
theorem claim9_limit_two (statFn : Nat → Nat → Except OsErr StatResult)
    (clock : Nat → ℚ) (cb : Callback) (wl : List (Nat × List Nat))
    (interval : Int) (retry : Bool) (softP hardP : ℚ) (fuel : Nat)
    (σ : Nat → Nat → StatResult)
    (hstat : ∀ kk p, statFn kk p = .ok (σ kk p))
    (hclock : ∀ m, clock m < softDeadline clock softP ∧
      clock m < hardDeadline clock hardP)
    (hcb : ∀ p dd o m, pyFalsy (cb p dd o m) = false)
    (hde : ∀ p fl, (p, fl) ∈ wl → ∀ k,
      diff_fields (if fl = [] then [ST_MTIME] else fl) (some (σ k p))
        (σ (k + 1) p) ≠ ∅)
    (hwl : wl ≠ []) (hnd : (wl.map Prod.fst).Nodup)
    (hint : (0 : Int) ≤ interval) (hfuel : 2 ≤ fuel) :
    (watchstat statFn clock cb wl interval 2 retry softP hardP fuel).map
      (fun r => (r.result, r.calls.length)) = some (.ok (.normal 2), 2) := by
  obtain ⟨f, rfl⟩ : ∃ f, fuel = f + 1 + 1 := ⟨fuel - 2, by omega⟩
  obtain ⟨s0, hs0, hmem, _⟩ :=
    initStats_spec statFn retry σ hstat wl (fun _ => none)
  have hws : watchstat statFn clock cb wl interval 2 retry softP hardP
      (f + 1 + 1) =
      runCycles statFn clock cb wl 2 interval (softDeadline clock softP)
        (hardDeadline clock hardP) retry (f + 1 + 1) 1 ⟨0, clock 0, s0, 1⟩ [] := by
    simp only [watchstat]
    rw [hs0]
  set soft := softDeadline clock softP with hsoft
  set hard := hardDeadline clock hardP with hhard
  have hcyc1 := runCycles_cycle_two statFn clock cb wl interval soft hard retry
    σ (f + 1) 0 ⟨0, clock 0, s0, 1⟩ [] hstat hclock hcb
    (fun p fl hm => hde p fl hm 0) (fun p fl hm => hmem p fl hm) hnd hint
    ⟨(hclock 0).1, (hclock 0).2⟩ (by show (0 : Nat) ≤ 1; omega)
  rcases Nat.lt_or_ge (0 + wl.length) 2 with hlt | hge
  · -- single-entry watch list: one call in cycle 1, the second in cycle 2
    obtain ⟨st', calls', heq, hst1, hs1, hh1, hn1, hc1⟩ :=
      hcyc1.2 (by show 0 + wl.length < 2; exact hlt)
    have hwl1 : wl.length = 1 := by
      have hwlne : wl.length ≠ 0 := fun h => hwl (List.length_eq_zero.mp h)
      omega
    have hn1' : st'.ncalls = 1 := by
      rw [hn1]
      show 0 + wl.length = 1
      omega
    have hc1' : calls'.length = 1 := by
      rw [hc1]
      simp [hwl1]
    have hcyc2 := runCycles_cycle_two statFn clock cb wl interval soft hard
      retry σ f 1 st' calls' hstat hclock hcb (fun p fl hm => hde p fl hm 1)
      hst1 hnd hint ⟨hs1, hh1⟩ (by omega)
    obtain ⟨r, hr, hres, hrc⟩ := hcyc2.1 (by omega)
    have hlen2 : r.calls.length = 2 := by
      rw [hrc]
      omega
    rw [hws, heq, hr]
    simp only [Option.map_some', Option.some_inj]
    rw [hres, hlen2]
  · -- at least two entries: the limit is reached within cycle 1
    obtain ⟨r, hr, hres, hrc⟩ := hcyc1.1 (by show 2 ≤ 0 + wl.length; exact hge)
    have hlen2 : r.calls.length = 2 := by
      rw [hrc]
      simp
    rw [hws, hr]
    simp only [Option.map_some', Option.some_inj]
    rw [hres, hlen2]

/-- C9 witness: one watched path whose mtime is the cycle number, no
deadlines, `limit = 2`: the run returns normally with exactly two calls. -/
theorem claim9_witness :
    (watchstat (fun k _ => .ok (mtimeStat k)) (fun _ => 0) cbNone [(0, [])]
      1000 2 false 0 0 2).map (fun r => (r.result, r.calls.length)) =
      some (.ok (.normal 2), 2) :=
  claim9_limit_two (fun k _ => .ok (mtimeStat k)) (fun _ => 0) cbNone
    [(0, [])] 1000 false 0 0 2 (fun k _ => mtimeStat k)
    (fun _ _ => rfl)
    (fun _ => ⟨by show (0 : ℚ) < softDeadline (fun _ => 0) 0; decide,
      by show (0 : ℚ) < hardDeadline (fun _ => 0) 0; decide⟩)
    (fun _ _ _ _ => rfl)
    (by
      intro p fl hm k
      rw [List.mem_singleton, Prod.mk.injEq] at hm
      obtain ⟨rfl, rfl⟩ := hm
      have hb : (statIndex (mtimeStat k) ST_MTIME !=
          statIndex (mtimeStat (k + 1)) ST_MTIME) = true := by
        simp only [ST_MTIME, statIndex, mtimeStat, bne_iff_ne, ne_eq]
        omega
      show diff_fields [ST_MTIME] (some (mtimeStat k)) (mtimeStat (k + 1)) ≠ ∅
      simp [diff_fields, List.filter_cons, hb])
    (by decide) (by decide) (by decide) (by decide)
